import Mathlib

/-!
Verification of the event-to-BBCode translation engine of `bulletindown`
(`src/convert.rs`) against its natural-language specification.

The translator's driving loop is embedded shallowly: the external Markdown
parser (the `pulldown_cmark` dependency) is treated as a black box producing
a stream of events, so the embedding works over an explicit `List Event`.
Strings are modelled as `List Char` (Rust `String` text content); the output
buffer, the diagnostic sink (`eprintln!` warnings) and the `Result` error
channel are made explicit in a state record threaded through one step
function per event, exactly mirroring the `match` in `convert`.
-/

/-- Char-list view of a string literal, used for text content throughout. -/
def str (s : String) : List Char := s.data

/-- Rust `char::is_whitespace`: the Unicode `White_Space` property. -/
def rustIsWhitespace (c : Char) : Bool :=
  let n := c.toNat
  n == 0x09 || n == 0x0A || n == 0x0B || n == 0x0C || n == 0x0D ||
  n == 0x20 || n == 0x85 || n == 0xA0 || n == 0x1680 ||
  (decide (0x2000 ≤ n) && decide (n ≤ 0x200A)) ||
  n == 0x2028 || n == 0x2029 || n == 0x202F || n == 0x205F || n == 0x3000

/-- Rust `str::trim_end`: drop trailing whitespace. -/
def trimEndList (l : List Char) : List Char :=
  (l.reverse.dropWhile rustIsWhitespace).reverse

/-- Rust `str::trim`: drop leading and trailing whitespace. -/
def trimList (l : List Char) : List Char :=
  trimEndList (l.dropWhile rustIsWhitespace)

/-- The separator set of `split(&['<', '>'][..])`. -/
def splitPred (c : Char) : Bool := c == '<' || c == '>'

/-- Worker for `splitLtGt`, accumulating the current piece reversed. -/
def splitAux : List Char → List Char → List (List Char)
  | [], acc => [acc.reverse]
  | c :: cs, acc =>
    if splitPred c then acc.reverse :: splitAux cs []
    else splitAux cs (c :: acc)

/-- Rust `s.split(&['<', '>'][..])`: pieces between separator characters,
empty pieces included. -/
def splitLtGt (l : List Char) : List (List Char) := splitAux l []

/-- Value of a decimal digit character, if it is one. -/
def decDigitVal (c : Char) : Option Nat :=
  if decide ('0' ≤ c) && decide (c ≤ '9') then some (c.toNat - 48) else none

/-- Value of a hexadecimal digit character, if it is one. -/
def hexDigitVal (c : Char) : Option Nat :=
  if decide ('0' ≤ c) && decide (c ≤ '9') then some (c.toNat - 48)
  else if decide ('a' ≤ c) && decide (c ≤ 'f') then some (c.toNat - 87)
  else if decide ('A' ≤ c) && decide (c ≤ 'F') then some (c.toNat - 55)
  else none

/-- Numeric value of a digit string in the given base, `none` when empty or
containing a non-digit. -/
def digitsVal (base : Nat) (f : Char → Option Nat) : List Char → Option Nat
  | [] => none
  | l => l.foldlM (fun acc c => (f c).map fun d => acc * base + d) 0

/-- Translation of the common named character references. -/
def namedEntityVal (name : List Char) : Option Char :=
  if name = str "amp" then some '&'
  else if name = str "lt" then some '<'
  else if name = str "gt" then some '>'
  else if name = str "quot" then some (Char.ofNat 34)
  else if name = str "apos" then some (Char.ofNat 39)
  else if name = str "nbsp" then some (Char.ofNat 0xA0)
  else none

/-- Character denoted by the text between `&` and `;`, if recognised. -/
def entityVal : List Char → Option Char
  | '#' :: 'x' :: ds => (digitsVal 16 hexDigitVal ds).map Char.ofNat
  | '#' :: 'X' :: ds => (digitsVal 16 hexDigitVal ds).map Char.ofNat
  | '#' :: ds => (digitsVal 10 decDigitVal ds).map Char.ofNat
  | name => namedEntityVal name

/-- Fuel-indexed worker for `decodeHtmlEntities`. -/
def decodeEntitiesAux : Nat → List Char → List Char
  | 0, l => l
  | _ + 1, [] => []
  | fuel + 1, '&' :: rest =>
    let name := rest.takeWhile (fun c => !(c == ';'))
    match rest.dropWhile (fun c => !(c == ';')) with
    | ';' :: rest2 =>
      match entityVal name with
      | some c => c :: decodeEntitiesAux fuel rest2
      | none => '&' :: decodeEntitiesAux fuel rest
    | _ => '&' :: decodeEntitiesAux fuel rest
  | fuel + 1, c :: rest => c :: decodeEntitiesAux fuel rest

/-- Modelled from the spec: the external `html_escape` crate's
`decode_html_entities` (a dependency outside this repository, used by
`convert` for the spoiler label) — replaces `&name;`, `&#n;` and `&#xn;`
character references by the character they denote and leaves all other
text unchanged. -/
def decodeHtmlEntities (l : List Char) : List Char :=
  decodeEntitiesAux l.length l

/-- `args.rs`: the BBCode dialect selected on the command line. -/
inductive Dialect
  | Xenforo
  | Proboards
  deriving DecidableEq

/-- `pulldown_cmark::HeadingLevel`. -/
inductive HeadingLevel
  | H1 | H2 | H3 | H4 | H5 | H6
  deriving DecidableEq

/-- `pulldown_cmark::LinkType` (ignored by `convert`). -/
inductive LinkType
  | Inline | Reference | ReferenceUnknown | Collapsed | CollapsedUnknown
  | Shortcut | ShortcutUnknown | Autolink | Email
  deriving DecidableEq

/-- `pulldown_cmark::Alignment` for table columns (ignored by `convert`). -/
inductive ColAlign
  | NoneAlign | Left | Center | Right
  deriving DecidableEq

/-- `pulldown_cmark::CodeBlockKind` (ignored by `convert`). -/
inductive CodeBlockKind
  | Indented
  | Fenced (info : List Char)
  deriving DecidableEq

/-- `pulldown_cmark::Tag`: the structural tags opened and closed by events. -/
inductive Tag
  | Paragraph
  | Heading (level : HeadingLevel) (fragId : Option (List Char))
      (classes : List (List Char))
  | BlockQuote
  | CodeBlock (kind : CodeBlockKind)
  | List (firstNumber : Option Nat)
  | Item
  | FootnoteDefinition (label : List Char)
  | Table (alignments : List ColAlign)
  | TableHead
  | TableRow
  | TableCell
  | Emphasis
  | Strong
  | Strikethrough
  | Link (linkType : LinkType) (url : List Char) (title : List Char)
  | Image (linkType : LinkType) (url : List Char) (title : List Char)
  deriving DecidableEq

/-- `pulldown_cmark::Event`: one item of the parser's event stream. -/
inductive Event
  | Start (tag : Tag)
  | End (tag : Tag)
  | Text (s : List Char)
  | Code (s : List Char)
  | Html (s : List Char)
  | FootnoteReference (label : List Char)
  | SoftBreak
  | HardBreak
  | Rule
  | TaskListMarker (checked : Bool)
  deriving DecidableEq

/-- The constructor discriminator of a `Tag` (the construct type,
independent of payload). -/
inductive TagKind
  | Paragraph | Heading | BlockQuote | CodeBlock | List | Item
  | FootnoteDefinition | Table | TableHead | TableRow | TableCell
  | Emphasis | Strong | Strikethrough | Link | Image
  deriving DecidableEq

/-- Construct type of a tag. -/
def kindOf : Tag → TagKind
  | .Paragraph => .Paragraph
  | .Heading _ _ _ => .Heading
  | .BlockQuote => .BlockQuote
  | .CodeBlock _ => .CodeBlock
  | .List _ => .List
  | .Item => .Item
  | .FootnoteDefinition _ => .FootnoteDefinition
  | .Table _ => .Table
  | .TableHead => .TableHead
  | .TableRow => .TableRow
  | .TableCell => .TableCell
  | .Emphasis => .Emphasis
  | .Strong => .Strong
  | .Strikethrough => .Strikethrough
  | .Link _ _ _ => .Link
  | .Image _ _ _ => .Image

/-- The translator's mutable state: the output buffer, the two pending
flags `start_li` / `start_fn`, and the diagnostic sink (one entry per
`eprintln!` warning). -/
structure ConvState where
  output : List Char
  start_li : Bool
  start_fn : Bool
  warnings : List (List Char)
  deriving DecidableEq

/-- Fresh state at the top of `convert`. -/
def initState : ConvState := ⟨[], false, false, []⟩

/-- The `MULTILINE_SUMMARY` error message of `convert.rs`. -/
def MULTILINE_SUMMARY : String :=
  "A `<summary>` element (including its contents) must be all on a single line"

/-- The size character pushed for a heading level (`convert.rs` lines
55–61). -/
def headingSizeChar : HeadingLevel → Char
  | .H1 => '7'
  | .H2 => '6'
  | .H3 => '5'
  | .H4 => '4'
  | _ => '3'

/-- The `Event::Html` arm of `convert` (lines 215–302): the raw-markup
heuristic handler. Every branch of the Rust arm only appends to the output
buffer and the diagnostic sink (or fails), so it is embedded as the pair
of appended chunks: `(output text, warning lines)`. -/
def handleHtml (d : Dialect) (s : List Char) :
    Except String (List Char × List (List Char)) :=
  let t := trimList s
  if t = str "<del>" then .ok (str "[s]", [])
  else if t = str "</del>" then .ok (str "[/s]", [])
  else if t = str "<sup>" then .ok (str "[sup]", [])
  else if t = str "</sup>" then .ok (str "[/sup]", [])
  else if t = str "<sub>" then .ok (str "[sub]", [])
  else if t = str "</sub>" then .ok (str "[/sub]", [])
  else if t = str "<b>" then .ok (str "[b]", [])
  else if t = str "</b>" then .ok (str "[/b]", [])
  else if t = str "<i>" then .ok (str "[i]", [])
  else if t = str "</i>" then .ok (str "[/i]", [])
  else if t = str "<blockquote>" then
    .ok ((match d with
          | .Xenforo => str "[quote]"
          | .Proboards => str "[blockquote]"), [])
  else if t = str "</blockquote>" then
    .ok ((match d with
          | .Xenforo => str "[/quote]"
          | .Proboards => str "[/blockquote]"), [])
  else if t = str "<details>" then
    match d with
    | .Xenforo => .ok (str "\n[spoiler=", [])
    | .Proboards =>
      .ok ([], [str "[[WARN]] ProBoards doesn’t support `<details>`"])
  else if (str "<br").isPrefixOf t then
    match t.get? 3 with
    | some c =>
      if !(rustIsWhitespace c) && !(c == '/') && !(c == '>') then
        .ok (s, [str "[[WARN]] Unrecognised HTML tag: " ++ t])
      else
        .ok (str "\n", [])
    | none => .ok (s, [str "[[WARN]] Unrecognised HTML tag: " ++ t])
  else if (str "<summary").isPrefixOf t then
    match d with
    | .Xenforo =>
      if !((str "</summary>").isSuffixOf t) then .error MULTILINE_SUMMARY
      else
        match (splitLtGt t).get? 2 with
        | some piece => .ok (decodeHtmlEntities piece ++ str "]", [])
        | none => .error MULTILINE_SUMMARY
    | .Proboards => .ok ([], [])
  else if t = str "</details>" then
    match d with
    | .Xenforo => .ok (str "[/spoiler]\n", [])
    | .Proboards => .ok ([], [])
  else if (str "<!").isPrefixOf s then .ok ([], [])
  else .ok (s, [str "[[WARN]] Unrecognised HTML tag: " ++ s])

/-- One iteration of the `for event in parser` loop of `convert`. -/
def convertStep (d : Dialect) (st : ConvState) (event : Event) :
    Except String ConvState :=
  match event with
  | .Start tag =>
    match tag with
    | .Paragraph =>
      if st.start_li || st.start_fn then
        .ok { st with start_li := false, start_fn := false }
      else
        .ok { st with output := st.output ++ str "\n" }
    | .Heading lvl _ _ =>
      .ok { st with output := st.output ++
        (match d with
         | .Xenforo => str "\n[size=\""
         | .Proboards => str "\n\n[font size=\"") ++
        [headingSizeChar lvl] ++ str "\"][b][u]" }
    | .BlockQuote =>
      .ok { st with output := st.output ++
        (match d with
         | .Xenforo => str "[quote]"
         | .Proboards => str "[blockquote]") }
    | .CodeBlock _ =>
      .ok { st with output := st.output ++
        (match d with
         | .Xenforo => str "[code]"
         | .Proboards => str "\n[pre]") }
    | .List ord =>
      .ok { st with output := st.output ++
        (if ord.isSome then
          match d with
          | .Xenforo => str "[list=1]"
          | .Proboards => str "\n[ol]"
        else
          match d with
          | .Xenforo => str "[list]"
          | .Proboards => str "\n[ul]") }
    | .Item =>
      .ok { st with
        start_li := true
        output := st.output ++
          (match d with
           | .Xenforo => str "\n[*]"
           | .Proboards => str "\n[li]") }
    | .FootnoteDefinition fnid =>
      .ok { st with
        start_fn := true
        output := st.output ++ str "\n⌜" ++ fnid ++ str "⌝: " }
    | .Table _ => .ok { st with output := st.output ++ str "[table]" }
    | .TableHead =>
      .ok { st with output := st.output ++
        (match d with
         | .Xenforo => str "[tr]"
         | .Proboards => str "\n  [thead][tr]") }
    | .TableRow => .ok { st with output := st.output ++ str "[tr]" }
    | .TableCell => .ok { st with output := st.output ++ str "[td]" }
    | .Emphasis => .ok { st with output := st.output ++ str "[i]" }
    | .Strong => .ok { st with output := st.output ++ str "[b]" }
    | .Strikethrough => .ok { st with output := st.output ++ str "[s]" }
    | .Link _ url _ =>
      .ok { st with output := st.output ++
        (match d with
         | .Xenforo => str "[url="
         | .Proboards => str "[a href=\"") ++ url ++
        (match d with
         | .Xenforo => str "]"
         | .Proboards => str "\"]") }
    | .Image _ url title =>
      match d with
      | .Xenforo =>
        .ok { st with output :=
          st.output ++ str "[img]" ++ url ++ str "[/img]" }
      | .Proboards =>
        .ok { st with output :=
          st.output ++ str "[img src=\"" ++ url ++ str "\" alt=\"" ++
          title ++ str "\"]" }
  | .End tag =>
    match tag with
    | .Paragraph => .ok { st with output := st.output ++ str "\n" }
    | .Heading _ _ _ =>
      .ok { st with output := st.output ++
        (match d with
         | .Xenforo => str "[/u][/b][/size]\n"
         | .Proboards => str "[/u][/b][/font]\n\n") }
    | .BlockQuote =>
      .ok { st with output := st.output ++
        (match d with
         | .Xenforo => str "[/quote]"
         | .Proboards => str "[/blockquote]") }
    | .CodeBlock _ =>
      .ok { st with output := st.output ++
        (match d with
         | .Xenforo => str "[/code]\n"
         | .Proboards => str "[/pre]\n") }
    | .List ord =>
      .ok { st with output := st.output ++
        (match d with
         | .Xenforo => str "\n[/list]"
         | .Proboards =>
           if ord.isSome then str "\n[/ol]" else str "\n[/ul]") }
    | .Item =>
      match d with
      | .Xenforo => .ok { st with output := trimEndList st.output }
      | .Proboards =>
        .ok { st with output := trimEndList st.output ++ str "[/li]" }
    | .FootnoteDefinition _ =>
      .ok { st with output := st.output ++ str "\n" }
    | .Table _ =>
      .ok { st with output := st.output ++
        (match d with
         | .Xenforo => str "[/table]"
         | .Proboards => str "\n  [/tbody]\n[/table]") }
    | .TableHead =>
      .ok { st with output := st.output ++
        (match d with
         | .Xenforo => str "[/tr]"
         | .Proboards => str "[/tr][/thead]\n  [tbody]") }
    | .TableRow => .ok { st with output := st.output ++ str "[/tr]" }
    | .TableCell => .ok { st with output := st.output ++ str "[/td]" }
    | .Emphasis => .ok { st with output := st.output ++ str "[/i]" }
    | .Strong => .ok { st with output := st.output ++ str "[/b]" }
    | .Strikethrough => .ok { st with output := st.output ++ str "[/s]" }
    | .Link _ _ _ =>
      .ok { st with output := st.output ++
        (match d with
         | .Xenforo => str "[/url]"
         | .Proboards => str "[/a]") }
    | .Image _ _ _ => .ok st
  | .Text s => .ok { st with output := st.output ++ s }
  | .Code s =>
    .ok { st with output := st.output ++
      (match d with
       | .Xenforo => str "[font=Courier New]"
       | .Proboards => str "[tt]") ++ s ++
      (match d with
       | .Xenforo => str "[/font]"
       | .Proboards => str "[/tt]") }
  | .Html s =>
    match handleHtml d s with
    | .error msg => .error msg
    | .ok (a, w) =>
      .ok { st with output := st.output ++ a, warnings := st.warnings ++ w }
  | .FootnoteReference fnid =>
    .ok { st with output := (st.output ++
      (match d with
       | .Xenforo => []
       | .Proboards => str "[sup]") ++
      str "⌜" ++ fnid ++ str "⌝" ++
      (match d with
       | .Xenforo => []
       | .Proboards => str "[/sup]")) }
  | .SoftBreak => .ok { st with output := st.output ++ str " " }
  | .HardBreak => .ok { st with output := st.output ++ str "\n" }
  | .Rule =>
    .ok { st with output := st.output ++
      (match d with
       | .Xenforo => str "\n━━━━━━━━━━━━━━━━━━━━━━━━━━━━━━━━\n"
       | .Proboards => str "\n[hr]\n") }
  | .TaskListMarker checked =>
    .ok { st with output := st.output ++
      [if checked then Char.ofNat 0x2611 else Char.ofNat 0x2610] ++
      [Char.ofNat 0xA0] }

/-- The whole event loop of `convert`, aborting on the first error. -/
def runLoop (d : Dialect) (st : ConvState) : List Event →
    Except String ConvState
  | [] => .ok st
  | e :: rest =>
    match convertStep d st e with
    | .error msg => .error msg
    | .ok st' => runLoop d st' rest

/-- The warning line produced for one out-of-range output character
(`convert.rs` lines 340–344). -/
def encodingWarnMsg (c : Char) : List Char :=
  str "[[WARN]] Non-UCS-2 character in output: " ++ [c] ++
  str " (U+" ++ Nat.toDigits 16 c.toNat ++ str ")"

/-- The per-character scan of the encoding-validator pass (`convert.rs`
lines 338–346): a warning for every character at or above U+FFFE. -/
def encodingScan : List Char → List (List Char)
  | [] => []
  | c :: rest =>
    if decide (0xFFFE ≤ c.toNat) then encodingWarnMsg c :: encodingScan rest
    else encodingScan rest

/-- The encoding-validator pass (`convert.rs` lines 335–350), keyed on the
dialect: only Xenforo is scanned. -/
def encodingWarnList (d : Dialect) (out : List Char) : List (List Char) :=
  match d with
  | .Xenforo => encodingScan out
  | .Proboards => []

/-- The whole of `convert` over an event stream: the event loop followed by
the optional encoding-validator pass; returns the output buffer together
with the accumulated diagnostic-sink lines. -/
def convertEvents (d : Dialect) (events : List Event)
    (encoding_warnings : Bool) : Except String (List Char × List (List Char)) :=
  match runLoop d initState events with
  | .error msg => .error msg
  | .ok st =>
    .ok (st.output,
      st.warnings ++
        if encoding_warnings then encodingWarnList d st.output else [])

/-- The opening markup appended for `Event::Start(tag)`, as a function of
the dialect, the two pending flags, and the tag. -/
def startMarkup (d : Dialect) (li fn : Bool) : Tag → List Char
  | .Paragraph => if li || fn then [] else str "\n"
  | .Heading lvl _ _ =>
    (match d with
     | .Xenforo => str "\n[size=\""
     | .Proboards => str "\n\n[font size=\"") ++
    [headingSizeChar lvl] ++ str "\"][b][u]"
  | .BlockQuote =>
    (match d with
     | .Xenforo => str "[quote]"
     | .Proboards => str "[blockquote]")
  | .CodeBlock _ =>
    (match d with
     | .Xenforo => str "[code]"
     | .Proboards => str "\n[pre]")
  | .List ord =>
    if ord.isSome then
      match d with
      | .Xenforo => str "[list=1]"
      | .Proboards => str "\n[ol]"
    else
      match d with
      | .Xenforo => str "[list]"
      | .Proboards => str "\n[ul]"
  | .Item =>
    (match d with
     | .Xenforo => str "\n[*]"
     | .Proboards => str "\n[li]")
  | .FootnoteDefinition fnid => str "\n⌜" ++ fnid ++ str "⌝: "
  | .Table _ => str "[table]"
  | .TableHead =>
    (match d with
     | .Xenforo => str "[tr]"
     | .Proboards => str "\n  [thead][tr]")
  | .TableRow => str "[tr]"
  | .TableCell => str "[td]"
  | .Emphasis => str "[i]"
  | .Strong => str "[b]"
  | .Strikethrough => str "[s]"
  | .Link _ url _ =>
    (match d with
     | .Xenforo => str "[url="
     | .Proboards => str "[a href=\"") ++ url ++
    (match d with
     | .Xenforo => str "]"
     | .Proboards => str "\"]")
  | .Image _ url title =>
    match d with
    | .Xenforo => str "[img]" ++ url ++ str "[/img]"
    | .Proboards =>
      str "[img src=\"" ++ url ++ str "\" alt=\"" ++ title ++ str "\"]"

/-- The closing markup appended for `Event::End(tag)` (after the
trailing-whitespace truncation in the `ListItem` case). -/
def endMarkup (d : Dialect) : Tag → List Char
  | .Paragraph => str "\n"
  | .Heading _ _ _ =>
    (match d with
     | .Xenforo => str "[/u][/b][/size]\n"
     | .Proboards => str "[/u][/b][/font]\n\n")
  | .BlockQuote =>
    (match d with
     | .Xenforo => str "[/quote]"
     | .Proboards => str "[/blockquote]")
  | .CodeBlock _ =>
    (match d with
     | .Xenforo => str "[/code]\n"
     | .Proboards => str "[/pre]\n")
  | .List ord =>
    (match d with
     | .Xenforo => str "\n[/list]"
     | .Proboards => if ord.isSome then str "\n[/ol]" else str "\n[/ul]")
  | .Item =>
    (match d with
     | .Xenforo => []
     | .Proboards => str "[/li]")
  | .FootnoteDefinition _ => str "\n"
  | .Table _ =>
    (match d with
     | .Xenforo => str "[/table]"
     | .Proboards => str "\n  [/tbody]\n[/table]")
  | .TableHead =>
    (match d with
     | .Xenforo => str "[/tr]"
     | .Proboards => str "[/tr][/thead]\n  [tbody]")
  | .TableRow => str "[/tr]"
  | .TableCell => str "[/td]"
  | .Emphasis => str "[/i]"
  | .Strong => str "[/b]"
  | .Strikethrough => str "[/s]"
  | .Link _ _ _ =>
    (match d with
     | .Xenforo => str "[/url]"
     | .Proboards => str "[/a]")
  | .Image _ _ _ => []

/-- Number of `Start` events of the given construct type in a stream. -/
def countStart (k : TagKind) (evs : List Event) : Nat :=
  evs.countP fun e =>
    match e with
    | .Start t => decide (kindOf t = k)
    | _ => false

/-- Number of `End` events of the given construct type in a stream. -/
def countEnd (k : TagKind) (evs : List Event) : Nat :=
  evs.countP fun e =>
    match e with
    | .End t => decide (kindOf t = k)
    | _ => false

/-- Stack-based well-nestedness check: every `Start` is matched by a later
`End` of the same construct type, properly nested. -/
def nestedChk : List TagKind → List Event → Bool
  | stk, [] => stk.isEmpty
  | stk, .Start t :: rest => nestedChk (kindOf t :: stk) rest
  | [], .End _ :: _ => false
  | k :: stk, .End t :: rest =>
    if kindOf t = k then nestedChk stk rest else false
  | stk, _ :: rest => nestedChk stk rest

/-- A stream is well-nested when the check succeeds from the empty stack. -/
def wellNested (evs : List Event) : Bool := nestedChk [] evs

/-- The three event shapes that touch the pending flags. -/
inductive FlagEv
  | item | fnd | par
  deriving DecidableEq

/-- Classifies the events that touch the `start_li` / `start_fn` flags. -/
def flagClass : Event → Option FlagEv
  | .Start .Item => some .item
  | .Start (.FootnoteDefinition _) => some .fnd
  | .Start .Paragraph => some .par
  | _ => none

/-- Adjacent flag-events that do not open a list item and a footnote
definition without an intervening paragraph start. -/
def noCross (a b : FlagEv) : Prop :=
  ¬(a = .item ∧ b = .fnd) ∧ ¬(a = .fnd ∧ b = .item)

/-- A raw-markup fragment that matches nothing on the handler's whitelist
(neither an exact entry nor the `<br` / `<summary` prefix forms), i.e. one
that reaches the handler's final catch-all arm. -/
def unrecognizedHtml (s : List Char) : Bool :=
  let t := trimList s
  !(decide (t = str "<del>")) && !(decide (t = str "</del>")) &&
  !(decide (t = str "<sup>")) && !(decide (t = str "</sup>")) &&
  !(decide (t = str "<sub>")) && !(decide (t = str "</sub>")) &&
  !(decide (t = str "<b>")) && !(decide (t = str "</b>")) &&
  !(decide (t = str "<i>")) && !(decide (t = str "</i>")) &&
  !(decide (t = str "<blockquote>")) &&
  !(decide (t = str "</blockquote>")) &&
  !(decide (t = str "<details>")) && !(decide (t = str "</details>")) &&
  !((str "<br").isPrefixOf t) &&
  !((str "<summary").isPrefixOf t)

/-- The event sequence of one list item holding a single paragraph. -/
def mkItem (t : List Char) : List Event :=
  [.Start .Item, .Start .Paragraph, .Text t, .End .Paragraph, .End .Item]

/-- Concatenation of the per-item event sequences. -/
def itemEvents : List (List Char) → List Event
  | [] => []
  | t :: ts => mkItem t ++ itemEvents ts

/-- The event stream of an unordered list whose items each hold a single
paragraph of the given text. -/
def ulStream (ts : List (List Char)) : List Event :=
  .Start (.List none) :: itemEvents ts ++ [.End (.List none)]

/-- Concatenated images of a list under a char-list-valued function. -/
def catMap (f : List Char → List Char) : List (List Char) → List Char
  | [] => []
  | t :: ts => f t ++ catMap f ts

/-- The pending flags after processing `Event::Start(tag)` from flags
`(li, fn)`. -/
def startFlags (li fn : Bool) : Tag → Bool × Bool
  | .Paragraph => if li || fn then (false, false) else (li, fn)
  | .Item => (true, fn)
  | .FootnoteDefinition _ => (li, true)
  | _ => (li, fn)

theorem trimEndList_append_last (x : List Char) (c : Char)
    (hc : rustIsWhitespace c = false) (t : List Char) :
    trimEndList ((x ++ [c]) ++ t) = (x ++ [c]) ++ trimEndList t := by
  unfold trimEndList
  rw [List.reverse_append, List.reverse_append, List.dropWhile_append]
  by_cases h : (t.reverse.dropWhile rustIsWhitespace).isEmpty
  · have h' : t.reverse.dropWhile rustIsWhitespace = [] := by
      simpa [List.isEmpty_iff] using h
    simp [h, h', List.dropWhile_cons, hc]
  · have h' : (t.reverse.dropWhile rustIsWhitespace).isEmpty = false := by
      simpa using h
    simp [h', List.reverse_append, List.append_assoc]

theorem trimEndList_append_ws (t : List Char) (c : Char)
    (hc : rustIsWhitespace c = true) :
    trimEndList (t ++ [c]) = trimEndList t := by
  unfold trimEndList
  rw [List.reverse_append]
  simp [List.dropWhile_cons, hc]

theorem runLoop_append (d : Dialect) (st : ConvState) (l₁ l₂ : List Event) :
    runLoop d st (l₁ ++ l₂) =
      match runLoop d st l₁ with
      | .error e => .error e
      | .ok st' => runLoop d st' l₂ := by
  induction l₁ generalizing st with
  | nil => rfl
  | cons e rest ih =>
    simp only [List.cons_append, runLoop]
    cases convertStep d st e with
    | error msg => rfl
    | ok st' => exact ih st'

theorem convertStep_start (d : Dialect) (st : ConvState) (t : Tag) :
    convertStep d st (.Start t) = .ok
      { output := st.output ++ startMarkup d st.start_li st.start_fn t
        start_li := (startFlags st.start_li st.start_fn t).1
        start_fn := (startFlags st.start_li st.start_fn t).2
        warnings := st.warnings } := by
  cases t with
  | Paragraph =>
    by_cases h : (st.start_li || st.start_fn) = true <;>
      simp_all [convertStep, startMarkup, startFlags]
  | List ord =>
    cases d <;> cases ord <;> simp [convertStep, startMarkup, startFlags]
  | Image lt url title =>
    cases d <;> simp [convertStep, startMarkup, startFlags, List.append_assoc]
  | _ =>
    cases d <;>
      simp [convertStep, startMarkup, startFlags, List.append_assoc]

theorem convertStep_end (d : Dialect) (st : ConvState) (t : Tag) :
    convertStep d st (.End t) = .ok
      { st with output :=
          (if kindOf t = .Item then trimEndList st.output else st.output) ++
          endMarkup d t } := by
  cases t with
  | List ord =>
    cases d <;> cases ord <;> simp [convertStep, endMarkup, kindOf]
  | Item =>
    cases d <;> simp [convertStep, endMarkup, kindOf]
  | _ =>
    cases d <;> simp [convertStep, endMarkup, kindOf]

theorem convertStep_html (d : Dialect) (st : ConvState) (s : List Char) :
    convertStep d st (.Html s) =
      match handleHtml d s with
      | .error msg => .error msg
      | .ok (a, w) =>
        .ok { st with output := st.output ++ a, warnings := st.warnings ++ w } :=
  rfl

theorem convertStep_flags (d : Dialect) (st : ConvState) (e : Event)
    (st' : ConvState) (hc : flagClass e = none)
    (h : convertStep d st e = .ok st') :
    st'.start_li = st.start_li ∧ st'.start_fn = st.start_fn := by
  cases e with
  | Start tag =>
    rw [convertStep_start] at h
    cases h
    cases tag <;> simp_all [flagClass, startFlags]
  | End tag =>
    rw [convertStep_end] at h
    cases h
    exact ⟨rfl, rfl⟩
  | Html s =>
    rw [convertStep_html] at h
    cases hh : handleHtml d s with
    | error m => rw [hh] at h; cases h
    | ok p =>
      rw [hh] at h
      cases p
      cases h
      exact ⟨rfl, rfl⟩
  | Text s => simp only [convertStep] at h; cases h; exact ⟨rfl, rfl⟩
  | Code s => simp only [convertStep] at h; cases h; exact ⟨rfl, rfl⟩
  | FootnoteReference l =>
    simp only [convertStep] at h; cases h; exact ⟨rfl, rfl⟩
  | SoftBreak => simp only [convertStep] at h; cases h; exact ⟨rfl, rfl⟩
  | HardBreak => simp only [convertStep] at h; cases h; exact ⟨rfl, rfl⟩
  | Rule => simp only [convertStep] at h; cases h; exact ⟨rfl, rfl⟩
  | TaskListMarker b =>
    simp only [convertStep] at h; cases h; exact ⟨rfl, rfl⟩

theorem convertStep_output (d : Dialect) (st : ConvState) (e : Event)
    (st' : ConvState) (h : convertStep d st e = .ok st')
    (hne : e ≠ .End .Item) :
    st.output <+: st'.output := by
  cases e with
  | Start tag =>
    rw [convertStep_start] at h
    cases h
    exact List.prefix_append _ _
  | End tag =>
    rw [convertStep_end] at h
    cases h
    cases tag <;>
      first
      | exact absurd rfl hne
      | exact List.prefix_append _ _
  | Html s =>
    rw [convertStep_html] at h
    cases hh : handleHtml d s with
    | error m => rw [hh] at h; cases h
    | ok p =>
      rw [hh] at h
      cases p
      cases h
      exact List.prefix_append _ _
  | Text s => simp only [convertStep] at h; cases h; exact List.prefix_append _ _
  | Code s =>
    simp only [convertStep] at h
    cases h
    simp only [List.append_assoc]
    exact List.prefix_append _ _
  | FootnoteReference l =>
    simp only [convertStep] at h
    cases h
    simp only [List.append_assoc]
    exact List.prefix_append _ _
  | SoftBreak =>
    simp only [convertStep] at h; cases h; exact List.prefix_append _ _
  | HardBreak =>
    simp only [convertStep] at h; cases h; exact List.prefix_append _ _
  | Rule => simp only [convertStep] at h; cases h; exact List.prefix_append _ _
  | TaskListMarker b =>
    simp only [convertStep] at h
    cases h
    simp only [List.append_assoc]
    exact List.prefix_append _ _

/-- C1, counterexample. The claim says heading levels 4, 5 and 6 all
collapse to the same single smallest size token; in the code level 4 gets
size token `'4'` while levels 5 and 6 get `'3'`, so the markup emitted for
`StartTag(Heading(4))` differs from that of `StartTag(Heading(5))`. -/
theorem cex_C1 :
    startMarkup .Xenforo false false (.Heading .H4 none []) ≠
      startMarkup .Xenforo false false (.Heading .H5 none []) ∧
    convertStep .Xenforo initState (.Start (.Heading .H4 none [])) =
      .ok ⟨startMarkup .Xenforo false false (.Heading .H4 none []),
           false, false, []⟩ ∧
    convertStep .Xenforo initState (.Start (.Heading .H5 none [])) =
      .ok ⟨startMarkup .Xenforo false false (.Heading .H5 none []),
           false, false, []⟩ ∧
    headingSizeChar .H4 = '4' ∧ headingSizeChar .H5 = '3' := by
  refine ⟨by decide, ?_, ?_, rfl, rfl⟩ <;> rfl

/-- C1, amended. For every dialect and event-stream state, the markup
emitted for `StartTag(Heading(level))` maps levels 1–6 to the
non-increasing size-token sequence `'7','6','5','4','3','3'`: levels 5 and
6 collapse to the same smallest token, while level 4 keeps its own token
`'4'`. -/
theorem claim_C1 (d : Dialect) (st : ConvState) (lvl : HeadingLevel)
    (fragId : Option (List Char)) (classes : List (List Char)) :
    convertStep d st (.Start (.Heading lvl fragId classes)) = .ok
      { st with output := (st.output ++
          startMarkup d st.start_li st.start_fn
            (.Heading lvl fragId classes)) } ∧
    (headingSizeChar .H2).toNat ≤ (headingSizeChar .H1).toNat ∧
    (headingSizeChar .H3).toNat ≤ (headingSizeChar .H2).toNat ∧
    (headingSizeChar .H4).toNat ≤ (headingSizeChar .H3).toNat ∧
    (headingSizeChar .H5).toNat ≤ (headingSizeChar .H4).toNat ∧
    (headingSizeChar .H6).toNat ≤ (headingSizeChar .H5).toNat ∧
    headingSizeChar .H5 = headingSizeChar .H6 := by
  refine ⟨?_, by decide⟩
  rw [convertStep_start]
  simp [startFlags]

/-- C8. The output buffer is append-only at every event except
`EndTag(ListItem)`: there the buffer is first truncated of its trailing
whitespace and then the dialect's item-close markup is appended; after
every other successfully processed event the previous buffer is a prefix
of the new buffer. -/
theorem claim_C8 (d : Dialect) (st st' : ConvState) (e : Event)
    (h : convertStep d st e = .ok st') :
    (e ≠ .End .Item → st.output <+: st'.output) ∧
    (e = .End .Item →
      st'.output = trimEndList st.output ++ endMarkup d .Item) := by
  constructor
  · exact fun hne => convertStep_output d st e st' h hne
  · intro he
    subst he
    rw [convertStep_end] at h
    cases h
    simp [kindOf]

/-- C8, witness. -/
theorem wit_C8 :
    initState.output <+: (⟨str "a", false, false, []⟩ : ConvState).output ∧
    (⟨str "[*]x", false, false, []⟩ : ConvState).output =
      trimEndList (str "[*]x \n") ++ endMarkup .Xenforo .Item :=
  ⟨(claim_C8 .Xenforo initState ⟨str "a", false, false, []⟩
      (.Text (str "a")) rfl).1 (by decide),
   (claim_C8 .Xenforo ⟨str "[*]x \n", false, false, []⟩
      ⟨str "[*]x", false, false, []⟩ (.End .Item) rfl).2 rfl⟩

/-- C9. A pending flag set by `StartTag(ListItem)` or
`StartTag(FootnoteDefinition)` is never cleared by an event other than a
`StartTag(Paragraph)` — in particular it persists past `Text`,
`EndTag(ListItem)`, `EndTag(FootnoteDefinition)` and `EndTag(List)` — so
in a tight list item or footnote definition (no paragraph inside) it
survives to suppress the leading blank line of the next
`StartTag(Paragraph)` occurring anywhere later in the stream: in the two
concrete tight streams below no newline is inserted before the final
paragraph's text `b`. -/
theorem claim_C9 :
    (∀ (d : Dialect) (st : ConvState) (e : Event) (st' : ConvState),
        flagClass e = none →
        convertStep d st e = .ok st' →
        st'.start_li = st.start_li ∧ st'.start_fn = st.start_fn) ∧
    (∀ (d : Dialect) (st st' : ConvState) (l : List Char),
        convertStep d st (.End (.FootnoteDefinition l)) = .ok st' →
        st'.start_li = st.start_li ∧ st'.start_fn = st.start_fn) ∧
    (∀ (d : Dialect) (st st' : ConvState),
        convertStep d st (.End .Item) = .ok st' →
        st'.start_li = st.start_li ∧ st'.start_fn = st.start_fn) ∧
    runLoop .Xenforo initState
      [.Start (.List none), .Start .Item, .Text (str "a"), .End .Item,
       .End (.List none), .Start .Paragraph, .Text (str "b"),
       .End .Paragraph] =
      .ok ⟨str "[list]\n[*]a\n[/list]b\n", false, false, []⟩ ∧
    runLoop .Xenforo initState
      [.Start (.FootnoteDefinition (str "f")), .Text (str "a"),
       .End (.FootnoteDefinition (str "f")), .Start .Paragraph,
       .Text (str "b"), .End .Paragraph] =
      .ok ⟨str "\n⌜f⌝: a\nb\n", false, false, []⟩ := by
  refine ⟨?_, ?_, ?_, rfl, rfl⟩
  · intro d st e st' hfc h
    exact convertStep_flags d st e st' hfc h
  · intro d st st' l h
    exact convertStep_flags d st (.End (.FootnoteDefinition l)) st' rfl h
  · intro d st st' h
    exact convertStep_flags d st (.End .Item) st' rfl h

/-- C9, witness. -/
theorem wit_C9 :
    ((⟨str "x", true, false, []⟩ : ConvState).start_li =
        (⟨[], true, false, []⟩ : ConvState).start_li ∧
      (⟨str "x", true, false, []⟩ : ConvState).start_fn =
        (⟨[], true, false, []⟩ : ConvState).start_fn) ∧
    ((⟨str "\n", false, true, []⟩ : ConvState).start_li =
        (⟨[], false, true, []⟩ : ConvState).start_li ∧
      (⟨str "\n", false, true, []⟩ : ConvState).start_fn =
        (⟨[], false, true, []⟩ : ConvState).start_fn) :=
  ⟨claim_C9.1 .Xenforo ⟨[], true, false, []⟩ (.Text (str "x"))
      ⟨str "x", true, false, []⟩ rfl rfl,
   claim_C9.2.1 .Xenforo ⟨[], false, true, []⟩ ⟨str "\n", false, true, []⟩
      (str "f") rfl⟩

theorem flagClass_inv (e : Event) (fe : FlagEv) (h : flagClass e = some fe) :
    (fe = .par ∧ e = .Start .Paragraph) ∨ (fe = .item ∧ e = .Start .Item) ∨
    (fe = .fnd ∧ ∃ l, e = .Start (.FootnoteDefinition l)) := by
  cases e with
  | Start tag => cases tag <;> simp_all [flagClass]
  | End tag => simp_all [flagClass]
  | Text s => simp_all [flagClass]
  | Code s => simp_all [flagClass]
  | Html s => simp_all [flagClass]
  | FootnoteReference l => simp_all [flagClass]
  | SoftBreak => simp_all [flagClass]
  | HardBreak => simp_all [flagClass]
  | Rule => simp_all [flagClass]
  | TaskListMarker b => simp_all [flagClass]

theorem flags_aux (d : Dialect) :
    ∀ (evs : List Event) (st st' : ConvState),
      List.Chain' noCross (evs.filterMap flagClass) →
      ((evs.filterMap flagClass).head? = some .item → st.start_fn = false) →
      ((evs.filterMap flagClass).head? = some .fnd → st.start_li = false) →
      ¬(st.start_li = true ∧ st.start_fn = true) →
      runLoop d st evs = .ok st' →
      ¬(st'.start_li = true ∧ st'.start_fn = true) := by
  intro evs
  induction evs with
  | nil =>
    intro st st' _ _ _ hinv h
    simp only [runLoop] at h
    cases h
    exact hinv
  | cons e rest ih =>
    intro st st' hchain hhi hhf hinv h
    simp only [runLoop] at h
    cases hs : convertStep d st e with
    | error m => rw [hs] at h; cases h
    | ok st₁ =>
      rw [hs] at h
      cases hfc : flagClass e with
      | none =>
        obtain ⟨hli, hfn⟩ := convertStep_flags d st e st₁ hfc hs
        have hfm : (e :: rest).filterMap flagClass =
            rest.filterMap flagClass := by
          simp [List.filterMap_cons, hfc]
        rw [hfm] at hchain hhi hhf
        refine ih st₁ st' hchain ?_ ?_ ?_ h
        · intro hx; rw [hfn]; exact hhi hx
        · intro hx; rw [hli]; exact hhf hx
        · rw [hli, hfn]; exact hinv
      | some fe =>
        have hfm : (e :: rest).filterMap flagClass =
            fe :: rest.filterMap flagClass := by
          simp [List.filterMap_cons, hfc]
        rw [hfm] at hchain hhi hhf
        rw [List.chain'_cons'] at hchain
        obtain ⟨hR, hchain'⟩ := hchain
        rcases flagClass_inv e fe hfc with ⟨hfe, he⟩ | ⟨hfe, he⟩ |
          ⟨hfe, l, he⟩ <;> subst hfe <;> subst he
        · -- Start Paragraph: both flags cleared or both already false
          rw [convertStep_start] at hs
          cases hs
          have hflags :
              startFlags st.start_li st.start_fn .Paragraph =
                (false, false) := by
            by_cases hc : (st.start_li || st.start_fn) = true
            · simp [startFlags, hc]
            · have hc' : (st.start_li || st.start_fn) = false := by
                simpa using hc
              rcases Bool.or_eq_false_iff.mp hc' with ⟨h1, h2⟩
              simp [startFlags, hc', h1, h2]
          refine ih _ st' hchain' ?_ ?_ ?_ h
          · intro _; simp [hflags]
          · intro _; simp [hflags]
          · simp [hflags]
        · -- Start Item: the fn flag must be clear, and no fnd may follow
          have hfn : st.start_fn = false := hhi rfl
          rw [convertStep_start] at hs
          cases hs
          refine ih _ st' hchain' ?_ ?_ ?_ h
          · intro _; simp [startFlags, hfn]
          · intro hx
            have := hR _ hx
            simp [noCross] at this
          · simp [startFlags, hfn]
        · -- Start FootnoteDefinition: symmetric
          have hli : st.start_li = false := hhf rfl
          rw [convertStep_start] at hs
          cases hs
          refine ih _ st' hchain' ?_ ?_ ?_ h
          · intro hx
            have := hR _ hx
            simp [noCross] at this
          · intro _; simp [startFlags, hli]
          · simp [startFlags, hli]

/-- C4, counterexample. The invariant fails on an arbitrary event
stream: a `StartTag(ListItem)` directly followed by a
`StartTag(FootnoteDefinition)` (no `Paragraph` start in between) leaves
both pending flags set at once, because opening one never clears the
other. -/
theorem cex_C4 :
    (runLoop .Xenforo initState
        [.Start .Item, .Start (.FootnoteDefinition (str "a"))]).map
      (fun st => (st.start_li, st.start_fn)) = .ok (true, true) := rfl

/-- C4, amended. For every event stream in which no list item and
footnote definition are started without an intervening paragraph start
(adjacent flag-touching events never pair a `ListItem` open with a
`FootnoteDefinition` open), after any successfully processed prefix at
most one of the two pending flags is true; and a `StartTag(Paragraph)`
always leaves both flags false, whatever the state. -/
theorem claim_C4 (d : Dialect) (evs : List Event)
    (hsep : List.Chain' noCross (evs.filterMap flagClass)) :
    (∀ (pre : List Event) (st'' : ConvState), pre <+: evs →
        runLoop d initState pre = .ok st'' →
        ¬(st''.start_li = true ∧ st''.start_fn = true)) ∧
    (∀ (st₀ st₁ : ConvState),
        convertStep d st₀ (.Start .Paragraph) = .ok st₁ →
        st₁.start_li = false ∧ st₁.start_fn = false) := by
  constructor
  · rintro pre st'' ⟨tail, rfl⟩ hrun
    rw [List.filterMap_append] at hsep
    have hpre : List.Chain' noCross (pre.filterMap flagClass) :=
      (List.chain'_append.mp hsep).1
    refine flags_aux d pre initState st'' hpre ?_ ?_ ?_ hrun
    · intro _; rfl
    · intro _; rfl
    · simp [initState]
  · intro st₀ st₁ hstep
    rw [convertStep_start] at hstep
    cases hstep
    by_cases hc : (st₀.start_li || st₀.start_fn) = true
    · simp [startFlags, hc]
    · have hc' : (st₀.start_li || st₀.start_fn) = false := by simpa using hc
      rcases Bool.or_eq_false_iff.mp hc' with ⟨h1, h2⟩
      simp [startFlags, hc', h1, h2]

/-- C4, witness. -/
theorem wit_C4 :
    ¬((⟨str "\n[*]", false, false, []⟩ : ConvState).start_li = true ∧
      (⟨str "\n[*]", false, false, []⟩ : ConvState).start_fn = true) :=
  (claim_C4 .Xenforo [.Start .Item, .Start .Paragraph]
      (by simp [List.filterMap, flagClass, List.chain'_cons', noCross])).1
    [.Start .Item, .Start .Paragraph] ⟨str "\n[*]", false, false, []⟩
    List.prefix_rfl rfl

theorem nestedChk_count (k : TagKind) :
    ∀ (evs : List Event) (stk : List TagKind), nestedChk stk evs = true →
      countStart k evs + stk.countP (fun x => decide (x = k)) =
        countEnd k evs := by
  intro evs
  induction evs with
  | nil =>
    intro stk h
    simp only [nestedChk, List.isEmpty_iff] at h
    simp [countStart, countEnd, h]
  | cons e rest ih =>
    intro stk h
    cases e with
    | Start t =>
      have hrec := ih (kindOf t :: stk) (by simpa [nestedChk] using h)
      simp only [countStart, countEnd, List.countP_cons] at hrec ⊢
      by_cases hk : kindOf t = k <;> simp [hk] at hrec ⊢ <;> omega
    | End t =>
      cases stk with
      | nil => simp [nestedChk] at h
      | cons k' stk' =>
        simp only [nestedChk] at h
        rcases ite_eq_iff.mp h with ⟨hk', hrec⟩ | ⟨_, hfalse⟩
        · have hrec := ih stk' hrec
          subst hk'
          simp only [countStart, countEnd, List.countP_cons] at hrec ⊢
          by_cases hk : kindOf t = k <;> simp [hk] at hrec ⊢ <;> omega
        · cases hfalse
    | Text s =>
      have hrec := ih stk (by simpa [nestedChk] using h)
      simpa [countStart, countEnd, List.countP_cons] using hrec
    | Code s =>
      have hrec := ih stk (by simpa [nestedChk] using h)
      simpa [countStart, countEnd, List.countP_cons] using hrec
    | Html s =>
      have hrec := ih stk (by simpa [nestedChk] using h)
      simpa [countStart, countEnd, List.countP_cons] using hrec
    | FootnoteReference l =>
      have hrec := ih stk (by simpa [nestedChk] using h)
      simpa [countStart, countEnd, List.countP_cons] using hrec
    | SoftBreak =>
      have hrec := ih stk (by simpa [nestedChk] using h)
      simpa [countStart, countEnd, List.countP_cons] using hrec
    | HardBreak =>
      have hrec := ih stk (by simpa [nestedChk] using h)
      simpa [countStart, countEnd, List.countP_cons] using hrec
    | Rule =>
      have hrec := ih stk (by simpa [nestedChk] using h)
      simpa [countStart, countEnd, List.countP_cons] using hrec
    | TaskListMarker b =>
      have hrec := ih stk (by simpa [nestedChk] using h)
      simpa [countStart, countEnd, List.countP_cons] using hrec

/-- C5. For every well-nested event stream (each `Start` matched by a
later `End` of the same `TagKind`) the number of `Start` events equals the
number of `End` events for every construct type; and every processed
`Start(tag)` appends exactly the tag's opening markup while every
processed `End(tag)` appends exactly the tag's closing markup (after the
`ListItem` trailing-whitespace truncation), so the emitted markup is
bracket-balanced per construct type at arbitrary nesting depth. -/
theorem claim_C5 (d : Dialect) (evs : List Event)
    (h : wellNested evs = true) :
    (∀ k, countStart k evs = countEnd k evs) ∧
    (∀ (st : ConvState) (t : Tag),
        convertStep d st (.Start t) = .ok
          { output := st.output ++ startMarkup d st.start_li st.start_fn t
            start_li := (startFlags st.start_li st.start_fn t).1
            start_fn := (startFlags st.start_li st.start_fn t).2
            warnings := st.warnings }) ∧
    (∀ (st : ConvState) (t : Tag),
        convertStep d st (.End t) = .ok
          { st with output :=
              (if kindOf t = .Item then trimEndList st.output
               else st.output) ++ endMarkup d t }) := by
  refine ⟨fun k => ?_, convertStep_start d, convertStep_end d⟩
  have hc := nestedChk_count k evs [] h
  simpa using hc

/-- C5, witness. -/
theorem wit_C5 :
    countStart .Strong [.Start .Strong, .End .Strong] =
      countEnd .Strong [.Start .Strong, .End .Strong] :=
  (claim_C5 .Xenforo [.Start .Strong, .End .Strong] (by decide)).1 .Strong

theorem runLoop_append_ok (d : Dialect) (st st₁ : ConvState)
    (l₁ l₂ : List Event) (h : runLoop d st l₁ = .ok st₁) :
    runLoop d st (l₁ ++ l₂) = runLoop d st₁ l₂ := by
  rw [runLoop_append, h]

theorem trimEnd_item_X (out t : List Char) :
    trimEndList (out ++ (str "\n[*]" ++ (t ++ str "\n"))) =
      out ++ (str "\n[*]" ++ trimEndList t) := by
  have h2 : out ++ str "\n[*]" = (out ++ str "\n[*") ++ [']'] := by
    rw [List.append_assoc]; rfl
  have haux : trimEndList (((out ++ str "\n[*]") ++ t) ++ str "\n") =
      (out ++ str "\n[*]") ++ trimEndList t := by
    rw [show (str "\n" : List Char) = ['\n'] from rfl,
        trimEndList_append_ws _ '\n' (by decide), h2,
        trimEndList_append_last (out ++ str "\n[*") ']' (by decide) t]
  simpa [List.append_assoc] using haux

theorem trimEnd_item_P (out t : List Char) :
    trimEndList (out ++ (str "\n[li]" ++ (t ++ str "\n"))) =
      out ++ (str "\n[li]" ++ trimEndList t) := by
  have h2 : out ++ str "\n[li]" = (out ++ str "\n[li") ++ [']'] := by
    rw [List.append_assoc]; rfl
  have haux : trimEndList (((out ++ str "\n[li]") ++ t) ++ str "\n") =
      (out ++ str "\n[li]") ++ trimEndList t := by
    rw [show (str "\n" : List Char) = ['\n'] from rfl,
        trimEndList_append_ws _ '\n' (by decide), h2,
        trimEndList_append_last (out ++ str "\n[li") ']' (by decide) t]
  simpa [List.append_assoc] using haux

theorem runLoop_items_X :
    ∀ (ts : List (List Char)) (out : List Char) (w : List (List Char)),
      runLoop .Xenforo ⟨out, false, false, w⟩ (itemEvents ts) =
        .ok ⟨out ++ catMap (fun t => str "\n[*]" ++ trimEndList t) ts,
             false, false, w⟩ := by
  intro ts
  induction ts with
  | nil => intro out w; simp [itemEvents, runLoop, catMap]
  | cons t ts ih =>
    intro out w
    have hstep : runLoop .Xenforo ⟨out, false, false, w⟩ (mkItem t) =
        .ok ⟨out ++ (str "\n[*]" ++ trimEndList t), false, false, w⟩ := by
      simp [mkItem, runLoop, convertStep]
      rw [trimEnd_item_X]
    rw [show itemEvents (t :: ts) = mkItem t ++ itemEvents ts from rfl,
        runLoop_append_ok .Xenforo _ _ (mkItem t) (itemEvents ts) hstep,
        ih]
    rw [show catMap (fun t => str "\n[*]" ++ trimEndList t) (t :: ts) =
          (str "\n[*]" ++ trimEndList t) ++
            catMap (fun t => str "\n[*]" ++ trimEndList t) ts from rfl]
    simp [List.append_assoc]

theorem runLoop_items_P :
    ∀ (ts : List (List Char)) (out : List Char) (w : List (List Char)),
      runLoop .Proboards ⟨out, false, false, w⟩ (itemEvents ts) =
        .ok ⟨out ++
              catMap
                (fun t => str "\n[li]" ++ (trimEndList t ++ str "[/li]"))
                ts,
             false, false, w⟩ := by
  intro ts
  induction ts with
  | nil => intro out w; simp [itemEvents, runLoop, catMap]
  | cons t ts ih =>
    intro out w
    have hstep : runLoop .Proboards ⟨out, false, false, w⟩ (mkItem t) =
        .ok ⟨out ++ (str "\n[li]" ++ (trimEndList t ++ str "[/li]")),
             false, false, w⟩ := by
      simp [mkItem, runLoop, convertStep]
      rw [trimEnd_item_P]
      simp [List.append_assoc]
    rw [show itemEvents (t :: ts) = mkItem t ++ itemEvents ts from rfl,
        runLoop_append_ok .Proboards _ _ (mkItem t) (itemEvents ts) hstep,
        ih]
    rw [show catMap (fun t => str "\n[li]" ++ (trimEndList t ++ str "[/li]"))
          (t :: ts) =
          (str "\n[li]" ++ (trimEndList t ++ str "[/li]")) ++
            catMap (fun t => str "\n[li]" ++ (trimEndList t ++ str "[/li]"))
              ts from rfl]
    simp [List.append_assoc]

theorem countStart_items (ts : List (List Char)) :
    countStart .Item (itemEvents ts) = ts.length := by
  induction ts with
  | nil => rfl
  | cons t ts ih =>
    rw [show itemEvents (t :: ts) = mkItem t ++ itemEvents ts from rfl]
    simp only [countStart] at ih ⊢
    rw [List.countP_append, ih]
    simp [mkItem, List.countP_cons, kindOf]
    omega

theorem countEnd_items (ts : List (List Char)) :
    countEnd .Item (itemEvents ts) = ts.length := by
  induction ts with
  | nil => rfl
  | cons t ts ih =>
    rw [show itemEvents (t :: ts) = mkItem t ++ itemEvents ts from rfl]
    simp only [countEnd] at ih ⊢
    rw [List.countP_append, ih]
    simp [mkItem, List.countP_cons, kindOf]
    omega

/-- C6. For an unordered list of `N` items (each one paragraph of
text), the stream contains exactly `N` `Start(ListItem)` and `N`
`End(ListItem)` events, each emitting exactly one item-open / item-close
marker (the item-close marker being empty for Xenforo and `[/li]` for
ProBoards), and in the resulting output the item-open marker is
immediately followed by the item's paragraph text, with no blank line in
between. -/
theorem claim_C6 (ts : List (List Char)) :
    countStart .Item (ulStream ts) = ts.length ∧
    countEnd .Item (ulStream ts) = ts.length ∧
    endMarkup .Xenforo .Item = [] ∧
    endMarkup .Proboards .Item = str "[/li]" ∧
    runLoop .Xenforo initState (ulStream ts) =
      .ok ⟨str "[list]" ++
            (catMap (fun t => str "\n[*]" ++ trimEndList t) ts ++
              str "\n[/list]"),
           false, false, []⟩ ∧
    runLoop .Proboards initState (ulStream ts) =
      .ok ⟨str "\n[ul]" ++
            (catMap (fun t => str "\n[li]" ++ (trimEndList t ++ str "[/li]"))
              ts ++
              str "\n[/ul]"),
           false, false, []⟩ := by
  have hdec : ulStream ts =
      [.Start (.List none)] ++ (itemEvents ts ++ [.End (.List none)]) := rfl
  refine ⟨?_, ?_, rfl, rfl, ?_, ?_⟩
  · have hs := countStart_items ts
    rw [hdec]
    simp only [countStart] at hs ⊢
    rw [List.countP_append, List.countP_append, hs]
    simp [List.countP_cons, kindOf]
  · have he := countEnd_items ts
    rw [hdec]
    simp only [countEnd] at he ⊢
    rw [List.countP_append, List.countP_append, he]
    simp [List.countP_cons, kindOf]
  · have h1 : runLoop .Xenforo initState [.Start (.List none)] =
        .ok ⟨str "[list]", false, false, []⟩ := rfl
    rw [hdec,
        runLoop_append_ok .Xenforo initState _ [.Start (.List none)] _ h1,
        runLoop_append_ok .Xenforo _ _ (itemEvents ts) [.End (.List none)]
          (runLoop_items_X ts (str "[list]") [])]
    simp [runLoop, convertStep, List.append_assoc]
  · have h1 : runLoop .Proboards initState [.Start (.List none)] =
        .ok ⟨str "\n[ul]", false, false, []⟩ := rfl
    rw [hdec,
        runLoop_append_ok .Proboards initState _ [.Start (.List none)] _ h1,
        runLoop_append_ok .Proboards _ _ (itemEvents ts) [.End (.List none)]
          (runLoop_items_P ts (str "\n[ul]") [])]
    simp [runLoop, convertStep, List.append_assoc]

theorem handleHtml_summary (d : Dialect) (s : List Char)
    (hp : (str "<summary").isPrefixOf (trimList s) = true) :
    handleHtml d s =
      match d with
      | .Xenforo =>
        if !((str "</summary>").isSuffixOf (trimList s)) then
          .error MULTILINE_SUMMARY
        else
          match (splitLtGt (trimList s)).get? 2 with
          | some piece => .ok (decodeHtmlEntities piece ++ str "]", [])
          | none => .error MULTILINE_SUMMARY
      | .Proboards => .ok ([], []) := by
  obtain ⟨r, hr⟩ := List.isPrefixOf_iff_prefix.mp hp
  have hbr : (str "<br").isPrefixOf (str "<summary" ++ r) = false := rfl
  have hsum : (str "<summary").isPrefixOf (str "<summary" ++ r) = true :=
    List.isPrefixOf_iff_prefix.mpr ⟨r, rfl⟩
  simp only [handleHtml]
  rw [← hr]
  simp [str, hbr, hsum]

theorem handleHtml_fallthrough (d : Dialect) (s : List Char)
    (h : unrecognizedHtml s = true) :
    handleHtml d s =
      if (str "<!").isPrefixOf s then .ok ([], [])
      else .ok (s, [str "[[WARN]] Unrecognised HTML tag: " ++ s]) := by
  simp only [unrecognizedHtml, Bool.and_eq_true, Bool.not_eq_true',
             decide_eq_false_iff_not] at h
  obtain ⟨⟨⟨⟨⟨⟨⟨⟨⟨⟨⟨⟨⟨⟨⟨h1, h2⟩, h3⟩, h4⟩, h5⟩, h6⟩, h7⟩, h8⟩, h9⟩,
    h10⟩, h11⟩, h12⟩, h13⟩, h14⟩, h15⟩, h16⟩ := h
  simp only [handleHtml]
  simp [h1, h2, h3, h4, h5, h6, h7, h8, h9, h10, h11, h12, h13, h14,
    h15, h16]

theorem bang_unrecognized (s : List Char)
    (h : (str "<!").isPrefixOf s = true) : unrecognizedHtml s = true := by
  obtain ⟨r, hr⟩ := List.isPrefixOf_iff_prefix.mp h
  subst hr
  have ht : trimList (str "<!" ++ r) = str "<!" ++ trimEndList r := by
    unfold trimList
    rw [show ((str "<!" ++ r).dropWhile rustIsWhitespace) =
          str "<!" ++ r from rfl]
    have := trimEndList_append_last ['<'] '!' (by decide) r
    simpa using this
  simp only [unrecognizedHtml, ht]
  simp [str]
  exact ⟨rfl, rfl⟩

theorem splitAux_length :
    ∀ (l acc : List Char),
      (splitAux l acc).length = l.countP splitPred + 1 := by
  intro l
  induction l with
  | nil => intro acc; rfl
  | cons c cs ih =>
    intro acc
    by_cases hc : splitPred c = true
    · simp [splitAux, hc, List.countP_cons, ih]
    · have hc' : splitPred c = false := by simpa using hc
      simp [splitAux, hc', List.countP_cons, ih]

theorem split_summary_some (t : List Char)
    (hp : (str "<summary").isPrefixOf t = true)
    (hs : (str "</summary>").isSuffixOf t = true) :
    ∃ piece, (splitLtGt t).get? 2 = some piece := by
  obtain ⟨r, hr⟩ := List.isPrefixOf_iff_prefix.mp hp
  obtain ⟨q, hq⟩ := List.isSuffixOf_iff_suffix.mp hs
  have hgt : ('>' : Char) ∈ t := by
    rw [← hq]
    exact List.mem_append_right q (by decide)
  have hmem : ('>' : Char) ∈ r := by
    rw [← hr] at hgt
    rcases List.mem_append.mp hgt with hin | hin
    · exact absurd hin (by decide)
    · exact hin
  have hcount : 2 ≤ t.countP splitPred := by
    rw [← hr, List.countP_append]
    have h1 : (str "<summary").countP splitPred = 1 := rfl
    have h2 : 0 < r.countP splitPred :=
      List.countP_pos_iff.mpr ⟨'>', hmem, by decide⟩
    omega
  have hlen : 3 ≤ (splitLtGt t).length := by
    unfold splitLtGt
    rw [splitAux_length]
    omega
  cases h2 : (splitLtGt t).get? 2 with
  | none =>
    have := List.get?_eq_none.mp h2
    omega
  | some piece => exact ⟨piece, rfl⟩

/-- C2, counterexample. The claim quantifies over every dialect, but
for ProBoards a raw fragment whose trimmed text begins with `<summary`
and has no closing `</summary>` is silently ignored — translation
succeeds with empty output instead of failing. -/
theorem cex_C2 :
    convertEvents .Proboards [.Html (str "<summary oops")] false =
      .ok ([], []) := rfl

/-- C2, amended. For the Xenforo dialect, a raw-inline fragment whose
trimmed text begins with `<summary` but does not end with `</summary>`
makes `convert` fail immediately with the `MULTILINE_SUMMARY`
(malformed-inline-markup) error — whatever follows in the stream, no
output is returned; ProBoards ignores the fragment. When the fragment
does contain the label text followed by the closing marker, translation
succeeds without error in both dialects. -/
theorem claim_C2 (s : List Char) (st : ConvState)
    (hp : (str "<summary").isPrefixOf (trimList s) = true) :
    ((str "</summary>").isSuffixOf (trimList s) = false →
      convertStep .Xenforo st (.Html s) = .error MULTILINE_SUMMARY ∧
      convertStep .Proboards st (.Html s) = .ok st ∧
      (∀ (pre rest : List Event) (st₁ : ConvState) (w : Bool),
        runLoop .Xenforo initState pre = .ok st₁ →
        convertEvents .Xenforo (pre ++ .Html s :: rest) w =
          .error MULTILINE_SUMMARY)) ∧
    ((str "</summary>").isSuffixOf (trimList s) = true →
      (∃ out, convertStep .Xenforo st (.Html s) =
        .ok { st with output := st.output ++ out }) ∧
      convertStep .Proboards st (.Html s) = .ok st) := by
  constructor
  · intro hsuf
    have hx : convertStep .Xenforo st (.Html s) =
        .error MULTILINE_SUMMARY := by
      rw [convertStep_html, handleHtml_summary .Xenforo s hp, hsuf]
      rfl
    refine ⟨hx, ?_, ?_⟩
    · rw [convertStep_html, handleHtml_summary .Proboards s hp]
      simp
    · intro pre rest st₁ w hpre
      have hherr : handleHtml .Xenforo s = .error MULTILINE_SUMMARY := by
        rw [handleHtml_summary .Xenforo s hp, hsuf]
        rfl
      unfold convertEvents
      rw [runLoop_append_ok .Xenforo initState st₁ pre (.Html s :: rest)
            hpre]
      simp only [runLoop, convertStep_html, hherr]
  · intro hsuf
    constructor
    · obtain ⟨piece, hpiece⟩ :=
        split_summary_some (trimList s) hp
          ((List.isSuffixOf_iff_suffix.mpr
            (List.isSuffixOf_iff_suffix.mp hsuf)))
      refine ⟨decodeHtmlEntities piece ++ str "]", ?_⟩
      rw [convertStep_html, handleHtml_summary .Xenforo s hp, hsuf,
          hpiece]
      simp
    · rw [convertStep_html, handleHtml_summary .Proboards s hp]
      simp

/-- C2, witness. -/
theorem wit_C2 :
    convertStep .Xenforo initState (.Html (str "<summary oops")) =
      .error MULTILINE_SUMMARY ∧
    convertStep .Proboards initState
        (.Html (str "<summary>L</summary>")) = .ok initState :=
  ⟨((claim_C2 (str "<summary oops") initState (by decide)).1
      (by decide)).1,
   ((claim_C2 (str "<summary>L</summary>") initState (by decide)).2
      (by decide)).2⟩

/-- C3. A raw-inline fragment beginning with the comment-opening
marker `<!` contributes no output and no warning; any fragment matching
nothing on the whitelist (after trimming, case-sensitively) and not
beginning with `<!` appends exactly one warning line to the diagnostic
sink and is passed through into the output verbatim. -/
theorem claim_C3 (d : Dialect) (st : ConvState) (s : List Char) :
    ((str "<!").isPrefixOf s = true →
      convertStep d st (.Html s) = .ok st) ∧
    (unrecognizedHtml s = true → (str "<!").isPrefixOf s = false →
      convertStep d st (.Html s) = .ok
        { st with
            output := st.output ++ s
            warnings := st.warnings ++
              [str "[[WARN]] Unrecognised HTML tag: " ++ s] }) := by
  constructor
  · intro hbang
    rw [convertStep_html,
        handleHtml_fallthrough d s (bang_unrecognized s hbang)]
    simp [hbang]
  · intro hunrec hbang
    rw [convertStep_html, handleHtml_fallthrough d s hunrec]
    simp [hbang]

/-- C3, witness. -/
theorem wit_C3 :
    convertStep .Xenforo initState (.Html (str "<!-- c -->")) =
      .ok initState ∧
    convertStep .Xenforo initState (.Html (str "<span>")) = .ok
      { initState with
          output := initState.output ++ str "<span>"
          warnings := initState.warnings ++
            [str "[[WARN]] Unrecognised HTML tag: " ++ str "<span>"] } :=
  ⟨(claim_C3 .Xenforo initState (str "<!-- c -->")).1 (by decide),
   (claim_C3 .Xenforo initState (str "<span>")).2 (by decide) (by decide)⟩

/-- C10. For Xenforo, a raw-inline fragment whose trimmed text starts
with `<summary` and ends with `</summary>` emits the third piece of
splitting the trimmed fragment on the characters `<` and `>`,
HTML-entity-decoded and followed by `]`; in particular
`<summary></summary>` emits exactly `]`, and attributes inside the
opening tag are dropped (`<summary class="a">Lbl</summary>` emits
`Lbl]`). -/
theorem claim_C10 (st : ConvState) (s : List Char)
    (hp : (str "<summary").isPrefixOf (trimList s) = true)
    (hs : (str "</summary>").isSuffixOf (trimList s) = true) :
    (∃ piece, (splitLtGt (trimList s)).get? 2 = some piece ∧
      convertStep .Xenforo st (.Html s) = .ok
        { st with output :=
            st.output ++ (decodeHtmlEntities piece ++ str "]") }) ∧
    convertStep .Xenforo st (.Html (str "<summary></summary>")) = .ok
      { st with output := st.output ++ str "]" } ∧
    convertStep .Xenforo st
        (.Html (str "<summary class=\"a\">Lbl</summary>")) = .ok
      { st with output := st.output ++ str "Lbl]" } := by
  refine ⟨?_, ?_, ?_⟩
  · obtain ⟨piece, hpiece⟩ := split_summary_some (trimList s) hp hs
    refine ⟨piece, hpiece, ?_⟩
    rw [convertStep_html, handleHtml_summary .Xenforo s hp, hs, hpiece]
    simp
  · rw [convertStep_html,
        show handleHtml .Xenforo (str "<summary></summary>") =
          .ok (str "]", []) from rfl]
    simp
  · rw [convertStep_html,
        show handleHtml .Xenforo
            (str "<summary class=\"a\">Lbl</summary>") =
          .ok (str "Lbl]", []) from rfl]
    simp

/-- C10, witness. -/
theorem wit_C10 :
    convertStep .Xenforo initState (.Html (str "<summary></summary>")) =
      .ok { initState with output := initState.output ++ str "]" } :=
  (claim_C10 initState (str "<summary></summary>") (by decide)
    (by decide)).2.1

theorem encodingScan_eq (out : List Char) :
    encodingScan out =
      (out.filter (fun c => decide (0xFFFE ≤ c.toNat))).map
        encodingWarnMsg := by
  induction out with
  | nil => rfl
  | cons c cs ih =>
    by_cases hc : (0xFFFE ≤ c.toNat)
    · simp [encodingScan, List.filter_cons, hc, ih]
    · simp [encodingScan, List.filter_cons, hc, ih]

/-- C7, counterexample. The claim says a warning is emitted only for
characters outside the 16-bit representable range, but the scan warns for
every character at or above U+FFFE: the character U+FFFE is representable
in 16 bits, yet the enabled validator emits a warning for it. -/
theorem cex_C7 :
    convertEvents .Xenforo [.Text [Char.ofNat 0xFFFE]] true =
      .ok ([Char.ofNat 0xFFFE], [encodingWarnMsg (Char.ofNat 0xFFFE)]) ∧
    (Char.ofNat 0xFFFE).toNat < 2 ^ 16 :=
  ⟨rfl, by decide⟩

/-- C7, amended. The encoding-validator pass never mutates the output
and never fails: the returned string (and error behaviour) is identical
whether the flag is on or off, and for ProBoards the whole result is
unchanged. When enabled for Xenforo, one warning is appended for exactly
every output character with code point at or above U+FFFE — all
characters outside the 16-bit range plus the two noncharacters U+FFFE
and U+FFFF. -/
theorem claim_C7 :
    (∀ (d : Dialect) (evs : List Event) (b : Bool),
      (convertEvents d evs b).map Prod.fst =
        (convertEvents d evs false).map Prod.fst) ∧
    (∀ evs, convertEvents .Proboards evs true =
        convertEvents .Proboards evs false) ∧
    (∀ (evs : List Event) (out : List Char) (w₀ w₁ : List (List Char)),
      convertEvents .Xenforo evs false = .ok (out, w₀) →
      convertEvents .Xenforo evs true = .ok (out, w₁) →
      w₁ = w₀ ++
        (out.filter (fun c => decide (0xFFFE ≤ c.toNat))).map
          encodingWarnMsg) := by
  refine ⟨?_, ?_, ?_⟩
  · intro d evs b
    unfold convertEvents
    cases hr : runLoop d initState evs <;> simp [Except.map]
  · intro evs
    unfold convertEvents
    cases hr : runLoop .Proboards initState evs <;>
      simp [encodingWarnList]
  · intro evs out w₀ w₁ h0 h1
    unfold convertEvents at h0 h1
    cases hr : runLoop .Xenforo initState evs with
    | error m => rw [hr] at h0; cases h0
    | ok st =>
      rw [hr] at h0 h1
      simp only [Except.ok.injEq, Prod.mk.injEq] at h0 h1
      obtain ⟨hout, hw0⟩ := h0
      obtain ⟨-, hw1⟩ := h1
      subst hout
      rw [← hw1, ← hw0]
      simp [encodingWarnList, encodingScan_eq]

/-- C7, witness. -/
theorem wit_C7 :
    [encodingWarnMsg (Char.ofNat 0x10000)] =
      ([] : List (List Char)) ++
        (([Char.ofNat 0x10000].filter
            (fun c => decide (0xFFFE ≤ c.toNat))).map encodingWarnMsg) :=
  claim_C7.2.2 [.Text [Char.ofNat 0x10000]] [Char.ofNat 0x10000] []
    [encodingWarnMsg (Char.ofNat 0x10000)] rfl rfl
